import Mathlib

/-!
Verification of the delta diff-rendering program (src/src/main.rs) against its
natural-language specification.  The Rust entry point `main`, the diagnostic
modes `show_background_colors`, `list_themes`, `list_theme_names` and the
helper `get_painted_rgb_string` are embedded shallowly below.  The diff
pipeline `delta` itself and the modules `paint`, `style`, `config`, `edits`
live outside the provided sources; where a claim depends on them they are
modelled from the specification, and each such definition says so in its doc
comment.
-/

namespace Delta

/-- Error kinds distinguished by `main`: `std::io::ErrorKind::BrokenPipe`
versus every other error (carrying its display message). -/
inductive ErrKind where
  | brokenPipe
  | other (msg : String)
deriving DecidableEq, Repr

/-- Observable events of one process run, used to state temporal claims:
asset loading, each diagnostic mode, configuration resolution
(`cli::process_command_line_arguments`), opening the output handle, and the
pipeline reading / writing one input line. -/
inductive Event where
  | loadAssets
  | runListLanguages
  | runListThemeNames
  | runListThemes
  | resolveConfig
  | runShowBackgroundColors
  | openOutput
  | readLine (i : Nat)
  | writeLine (i : Nat)
deriving DecidableEq, Repr

/-- The command-line flags of `cli::Opt` that `main` dispatches on. -/
structure Opt where
  list_languages : Bool
  list_theme_names : Bool
  list_themes : Bool
  show_background_colors : Bool
  light : Bool
  dark : Bool
deriving DecidableEq, Repr

/-- Modelled from the spec: the diff pipeline (`delta`, module outside the
provided sources) is single-threaded and strictly sequential, fully
processing each input line and writing its rendered output before reading
the next; a failing write terminates the pipeline and the I/O error is
returned to `main` (spec sections 5 and 7).  `w i` is the outcome of the
write for input line `i` (`none` = success).  The result is the event trace
paired with the error the pipeline returned, if any. -/
def deltaEvents : List String → (Nat → Option ErrKind) → Nat → List Event × Option ErrKind
  | [], _, _ => ([], none)
  | _ :: ls, w, i =>
    match w i with
    | some e => ([Event.readLine i, Event.writeLine i], some e)
    | none =>
      let r := deltaEvents ls w (i + 1)
      (Event.readLine i :: Event.writeLine i :: r.1, r.2)

/-- Result of one process run: the event trace, the process exit status, and
the lines printed to stderr. -/
structure RunResult where
  events : List Event
  exitCode : Nat
  errOutput : List String
deriving DecidableEq, Repr

/-- Shallow embedding of `main` (src/src/main.rs, lines 38-76): load assets;
dispatch the three early diagnostic flags (each exits 0 before configuration
is resolved); resolve configuration; dispatch `show_background_colors`
(exits 0); otherwise open the output handle and run the pipeline on stdin
lines, mapping a returned broken-pipe error to a silent exit 0 and any other
error to a single `eprintln` message followed by the normal `Ok(())` return,
which is exit status 0. -/
def mainRun (opt : Opt) (inputLines : List String) (w : Nat → Option ErrKind) : RunResult :=
  if opt.list_languages then
    ⟨[Event.loadAssets, Event.runListLanguages], 0, []⟩
  else if opt.list_theme_names then
    ⟨[Event.loadAssets, Event.runListThemeNames], 0, []⟩
  else if opt.list_themes then
    ⟨[Event.loadAssets, Event.runListThemes], 0, []⟩
  else if opt.show_background_colors then
    ⟨[Event.loadAssets, Event.resolveConfig, Event.runShowBackgroundColors], 0, []⟩
  else
    let d := deltaEvents inputLines w 0
    let evs := [Event.loadAssets, Event.resolveConfig, Event.openOutput] ++ d.1
    match d.2 with
    | some ErrKind.brokenPipe => ⟨evs, 0, []⟩
    | some (ErrKind.other msg) => ⟨evs, 0, [msg]⟩
    | none => ⟨evs, 0, []⟩

/-- An `Opt` with every flag cleared: the plain diff path. -/
def optPlain : Opt := ⟨false, false, false, false, false, false⟩

/-- Write outcomes where the write of line 1 (the second line written) hits
a broken pipe and every other write succeeds. -/
def wBrokenAt1 : Nat → Option ErrKind :=
  fun j => if j = 1 then some ErrKind.brokenPipe else none

/-- Write outcomes where the very first write fails with a fatal
(non-broken-pipe) I/O error. -/
def wFatalAt0 : Nat → Option ErrKind :=
  fun j => if j = 0 then some (ErrKind.other "io error") else none

/-- The built-in example diff that `list_themes` renders when standard input
is a TTY (src/src/main.rs lines 125-140). -/
def exampleDiff : String :=
  "diff --git a/example.rs b/example.rs\nindex f38589a..0f1bb83 100644\n--- a/example.rs\n+++ b/example.rs\n@@ -1,5 +1,5 @@\n-// Output the square of a number.\n-fn print_square(num: f64) \x7b\n-    let result = f64::powf(num, 2.0);\n-    println!(\"The square of \x7b:.2\x7d is \x7b:.2\x7d.\", num, result);\n+// Output the cube of a number.\n+fn print_cube(num: f64) \x7b\n+    let result = f64::powf(num, 3.0);\n+    println!(\"The cube of \x7b:.2\x7d is \x7b:.2\x7d.\", num, result);\n \x7d"

/-- The two ways input reaches the diff pipeline: the line iterator over
standard input (main diff path) and an in-memory string split on the newline
character (`list_themes`). -/
inductive InputFraming where
  | stdinLines
  | stringSplitNewline (s : String)
deriving DecidableEq, Repr

/-- The in-memory input string `list_themes` feeds to the pipeline: the
built-in example diff when stdin is a TTY, otherwise the whole of stdin read
into memory (src/src/main.rs lines 123-143). -/
def listThemesInput (stdinIsTty : Bool) (stdinContent : String) : String :=
  if stdinIsTty then exampleDiff else stdinContent

/-- Observable actions of a diagnostic mode: printing a line directly, or
invoking the full diff pipeline with a given input framing and theme. -/
inductive DiagEvent where
  | printLine (s : String)
  | pipelineCall (framing : InputFraming) (theme : String)
deriving DecidableEq, Repr

/-- Whether a diagnostic event is an invocation of the diff pipeline. -/
def isPipelineCall : DiagEvent → Bool
  | DiagEvent.pipelineCall _ _ => true
  | _ => false

/-- The pipeline framing of a diagnostic event, if it is a pipeline call. -/
def diagFraming : DiagEvent → Option InputFraming
  | DiagEvent.pipelineCall f _ => some f
  | _ => none

/-- The skip test of `list_themes` (src/src/main.rs line 150): skip a theme
when the light flag is set and the theme is not light, or the dark flag is
set and the theme is light. -/
def themeSkipped (opt : Opt) (isLight : String → Bool) (theme : String) : Bool :=
  (opt.light && !(isLight theme)) || (opt.dark && isLight theme)

/-- The themes `list_themes` renders, in theme-set iteration order. -/
def renderedThemes (opt : Opt) (isLight : String → Bool) (themes : List String) : List String :=
  themes.filter (fun t => !(themeSkipped opt isLight t))

/-- Shallow embedding of `list_themes` (src/src/main.rs lines 121-176): for
each theme surviving the light/dark filter, print the theme header line and
invoke the full diff pipeline on the in-memory input split on newlines with
that theme selected. -/
def list_themes_run (opt : Opt) (stdinIsTty : Bool) (stdinContent : String)
    (themes : List String) (isLight : String → Bool) : List DiagEvent :=
  ((renderedThemes opt isLight themes).map (fun theme =>
    [DiagEvent.printLine ("\nTheme: " ++ theme ++ "\n"),
     DiagEvent.pipelineCall
       (InputFraming.stringSplitNewline (listThemesInput stdinIsTty stdinContent)) theme])).flatten

/-- Shallow embedding of `list_theme_names` (src/src/main.rs lines 178-197):
print the line "Light themes:" followed by the light themes, then the line
"Dark themes:" followed by the remaining themes, both sections in theme-set
iteration order, each theme indented by four spaces. -/
def list_theme_names_run (themes : List String) (isLight : String → Bool) : List DiagEvent :=
  DiagEvent.printLine "Light themes:" ::
    ((themes.filter (fun t => isLight t)).map (fun t => DiagEvent.printLine ("    " ++ t))
      ++ DiagEvent.printLine "Dark themes:" ::
        (themes.filter (fun t => !(isLight t))).map (fun t => DiagEvent.printLine ("    " ++ t)))

/-- The input framings fed to the diff pipeline over one whole process run,
one entry per pipeline invocation, following main's dispatch: the
language-listing and theme-name-listing diagnostics and the
background-color diagnostic invoke no pipeline (the language listing is
implemented by the excluded assets collaborator and prints the asset set
directly; spec sections 1 and 6); `list_themes` invokes the pipeline once
per rendered theme on an in-memory string split on newlines; the plain diff
path invokes it exactly once on the lines of standard input. -/
def programPipelineFramings (opt : Opt) (stdinIsTty : Bool) (stdinContent : String)
    (themes : List String) (isLight : String → Bool) : List InputFraming :=
  if opt.list_languages then []
  else if opt.list_theme_names then
    (list_theme_names_run themes isLight).filterMap diagFraming
  else if opt.list_themes then
    (list_themes_run opt stdinIsTty stdinContent themes isLight).filterMap diagFraming
  else if opt.show_background_colors then []
  else [InputFraming.stdinLines]

/-- An `Opt` selecting only the light themes in `list_themes`. -/
def lightOnlyOpt : Opt := ⟨false, false, false, false, true, false⟩

/-- An `Opt` selecting only the dark themes in `list_themes`. -/
def darkOnlyOpt : Opt := ⟨false, false, false, false, false, true⟩

/-- A concrete light/dark classification for witnesses: exactly the theme
named "L" is light. -/
def isLightW : String → Bool := fun t => t == "L"

/-- RGB components of a syntect color, one byte each. -/
structure SColor where
  r : Nat
  g : Nat
  b : Nat
deriving DecidableEq, Repr

/-- Modelled from the spec: a color is a 24-bit RGB value or "unset"
(inherit the terminal default); `style::NO_COLOR` (module style, outside the
provided sources) is the unset color (spec section 3, Color). -/
inductive MColor where
  | unset
  | rgb (c : SColor)
deriving DecidableEq, Repr

/-- The sentinel foreground used by `get_painted_rgb_string`. -/
def NO_COLOR : MColor := MColor.unset

/-- The style built in `get_painted_rgb_string`: foreground, background and
the syntect font-style bitflags (0 is `FontStyle::empty()`). -/
structure PStyle where
  foreground : MColor
  background : MColor
  font_style : Nat
deriving DecidableEq, Repr

/-- A piece of terminal output: plain uncolored text, text painted with a
style, or the terminal style-reset sequence (ESC [ 0 m). -/
inductive Chunk where
  | plain (text : String)
  | painted (text : String) (style : PStyle) (trueColor : Bool)
  | reset
deriving DecidableEq, Repr

/-- Modelled from the spec: `paint::paint_text` (module paint, outside the
provided sources) serializes text carrying the given style into the output
buffer as escape-coded text (spec sections 4.5 and 6); the escape encoding
is abstracted as a structured chunk recording text, style and the
true-color capability. -/
def paint_text (text : String) (style : PStyle) (buf : List Chunk) (trueColor : Bool) : List Chunk :=
  buf ++ [Chunk.painted text style trueColor]

/-- Lowercase hexadecimal digit for a value below 16. -/
def hexDigitChar (n : Nat) : Char :=
  if n < 10 then Char.ofNat (48 + n) else Char.ofNat (87 + n)

/-- Two-digit lowercase hexadecimal rendering of one byte, as Rust's
02x formatting produces for a u8. -/
def hex2 (n : Nat) : String :=
  String.mk [hexDigitChar (n / 16 % 16), hexDigitChar (n % 16)]

/-- The "#rrggbb" rendering of a color built in `get_painted_rgb_string`. -/
def rgbHexString (c : SColor) : String :=
  "#" ++ hex2 c.r ++ hex2 c.g ++ hex2 c.b

/-- Shallow embedding of `get_painted_rgb_string` (src/src/main.rs lines
104-119): paint the color's "#rrggbb" hex string with that color as
background, `NO_COLOR` foreground and empty font style, then append the
terminal reset sequence. -/
def get_painted_rgb_string (color : SColor) (trueColor : Bool) : List Chunk :=
  paint_text (rgbHexString color) ⟨NO_COLOR, MColor.rgb color, 0⟩ [] trueColor ++ [Chunk.reset]

/-- Modelled from the spec: a style modifier of the resolved configuration
(module config, outside the provided sources) carries an optional background
color; main reads exactly the background fields (spec section 6,
configuration boundary). -/
structure StyleModifier where
  background : Option SColor
deriving DecidableEq, Repr

/-- The slice of the resolved configuration `show_background_colors`
reads: the four style modifiers and the true-color flag. -/
structure Config where
  minus_style_modifier : StyleModifier
  minus_emph_style_modifier : StyleModifier
  plus_style_modifier : StyleModifier
  plus_emph_style_modifier : StyleModifier
  true_color : Bool
deriving DecidableEq, Repr

/-- Shallow embedding of `show_background_colors` (src/src/main.rs lines
78-102): one println of the delta command line quoting the four painted
background colors.  The `.unwrap()` calls on the four background fields are
modelled by returning `none` (the panic case, no output) when a background
is absent. -/
def show_background_colors (config : Config) : Option (List (List Chunk)) :=
  match config.minus_style_modifier.background, config.minus_emph_style_modifier.background,
      config.plus_style_modifier.background, config.plus_emph_style_modifier.background with
  | some m, some me, some p, some pe =>
    some [[Chunk.plain "delta --minus-color=\""]
      ++ get_painted_rgb_string m config.true_color
      ++ [Chunk.plain "\" --minus-emph-color=\""]
      ++ get_painted_rgb_string me config.true_color
      ++ [Chunk.plain "\" --plus-color=\""]
      ++ get_painted_rgb_string p config.true_color
      ++ [Chunk.plain "\" --plus-emph-color=\""]
      ++ get_painted_rgb_string pe config.true_color
      ++ [Chunk.plain "\""]]
  | _, _, _, _ => none

/-- Whether a chunk carries color information (painted text or the reset),
as opposed to plain connective text. -/
def isColorChunk : Chunk → Bool
  | Chunk.plain _ => false
  | _ => true

/-- A concrete configuration for witnesses. -/
def configW : Config :=
  ⟨⟨some ⟨224, 108, 117⟩⟩, ⟨some ⟨255, 0, 0⟩⟩, ⟨some ⟨152, 195, 121⟩⟩, ⟨some ⟨0, 0, 255⟩⟩, true⟩

/-- Modelled from the spec: a token is a maximal run of whitespace or of
non-whitespace characters within a line (spec section 3, Token); the
EditComputer (module edits, outside the provided sources) tokenizes both
sides of a paired line by splitting on whitespace/non-whitespace boundaries,
preserving delimiters as tokens (spec section 4.3). -/
def tokenize : List Char → List (List Char)
  | [] => []
  | c :: cs =>
    match tokenize cs with
    | [] => [[c]]
    | [] :: ts => [c] :: ts
    | (d :: t) :: ts =>
      if c.isWhitespace == d.isWhitespace then (c :: d :: t) :: ts
      else [c] :: (d :: t) :: ts

/-- Edit-script operations over two token sequences: keep a common token,
delete a before-side token, insert an after-side token. -/
inductive Op where
  | keep
  | del
  | ins
deriving DecidableEq, Repr

/-- Modelled from the spec: the length of a longest common subsequence of
two token sequences, the basis of the minimal LCS edit script computed by
the EditComputer (spec section 4.3). -/
def lcsLen {α : Type} [DecidableEq α] : List α → List α → Nat
  | [], _ => 0
  | _, [] => 0
  | x :: xs, y :: ys =>
    if x = y then lcsLen xs ys + 1
    else max (lcsLen xs (y :: ys)) (lcsLen (x :: xs) ys)
termination_by l1 l2 => l1.length + l2.length

/-- Modelled from the spec: the minimal LCS-based edit script between the
before-side and after-side token sequences of a Paired line (spec section
4.3): equal heads are kept; otherwise the side whose tail admits the longer
common subsequence is consumed. -/
def editOps {α : Type} [DecidableEq α] : List α → List α → List Op
  | [], ys => ys.map (fun _ => Op.ins)
  | x :: xs, [] => (x :: xs).map (fun _ => Op.del)
  | x :: xs, y :: ys =>
    if x = y then Op.keep :: editOps xs ys
    else if lcsLen ys (x :: xs) ≤ lcsLen xs (y :: ys)
    then Op.del :: editOps xs (y :: ys)
    else Op.ins :: editOps (x :: xs) ys
termination_by l1 l2 => l1.length + l2.length

/-- Classification of a single token: common to both sides or exclusive to
one side (spec section 3, EditSpan status). -/
inductive TokStatus where
  | unchanged
  | changed
deriving DecidableEq, Repr

/-- Modelled from the spec: per-token classification of the before side,
read off the edit script: kept tokens are Unchanged, deleted tokens are
Changed, insertions concern only the after side. -/
def beforeStatuses (ops : List Op) : List TokStatus :=
  ops.filterMap (fun o =>
    match o with
    | Op.keep => some TokStatus.unchanged
    | Op.del => some TokStatus.changed
    | Op.ins => none)

/-- Modelled from the spec: per-token classification of the after side,
read off the edit script: kept tokens are Unchanged, inserted tokens are
Changed, deletions concern only the before side. -/
def afterStatuses (ops : List Op) : List TokStatus :=
  ops.filterMap (fun o =>
    match o with
    | Op.keep => some TokStatus.unchanged
    | Op.ins => some TokStatus.changed
    | Op.del => none)

/-- An EditSpan: a half-open token-index range with its classification
(spec section 3, EditSpan). -/
structure EditSpan where
  start : Nat
  stop : Nat
  status : TokStatus
deriving DecidableEq, Repr

/-- Modelled from the spec: group one side's per-token classifications into
maximal constant-status runs, yielding the side's ordered EditSpans starting
at token index `pos` (spec section 4.3, output). -/
def groupSpans : Nat → List TokStatus → List EditSpan
  | _, [] => []
  | pos, s :: rest =>
    match groupSpans (pos + 1) rest with
    | [] => [⟨pos, pos + 1, s⟩]
    | sp :: sps =>
      if sp.status = s then ⟨pos, sp.stop, s⟩ :: sps
      else ⟨pos, pos + 1, s⟩ :: sp :: sps

/-- The EditSpans of the before side of a Paired line. -/
def editSpansBefore (before after : String) : List EditSpan :=
  groupSpans 0 (beforeStatuses (editOps (tokenize before.data) (tokenize after.data)))

/-- The EditSpans of the after side of a Paired line. -/
def editSpansAfter (before after : String) : List EditSpan :=
  groupSpans 0 (afterStatuses (editOps (tokenize before.data) (tokenize after.data)))

/-- The spans form a partition of the token range from `lo` to `hi`:
ordered, gap-free, non-overlapping, starting at `lo`, ending at `hi`, every
span covering a non-empty range. -/
def isPartition : Nat → Nat → List EditSpan → Prop
  | lo, hi, [] => lo = hi
  | lo, hi, sp :: sps => sp.start = lo ∧ lo < sp.stop ∧ isPartition sp.stop hi sps

/-- Whether token index `i` lies inside span `sp`. -/
def spanHas (i : Nat) (sp : EditSpan) : Bool :=
  decide (sp.start ≤ i) && decide (i < sp.stop)

/-!  Theorems.  -/

/-- Every event the pipeline emits is a read or a write of some line index
`j ≥ s`, `j` within the input, and all writes for earlier indices (from `s`
on) succeeded: the pipeline never touches a line past the first failure. -/
theorem deltaEvents_mem (ls : List String) (w : Nat → Option ErrKind) (s : Nat)
    (e : Event) (he : e ∈ (deltaEvents ls w s).1) :
    ∃ j, s ≤ j ∧ j < s + ls.length ∧
      (e = Event.readLine j ∨ e = Event.writeLine j) ∧
      (∀ m, s ≤ m → m < j → w m = none) := by
  induction ls generalizing s with
  | nil => simp [deltaEvents] at he
  | cons l ls ih =>
    rw [deltaEvents] at he
    cases hw : w s with
    | some err =>
      rw [hw] at he
      simp only [List.mem_cons, List.mem_singleton] at he
      rcases he with he | he | he
      · exact ⟨s, le_refl s, by simp, Or.inl he, fun m hm hm2 => absurd (lt_of_le_of_lt hm hm2) (lt_irrefl s)⟩
      · exact ⟨s, le_refl s, by simp, Or.inr he, fun m hm hm2 => absurd (lt_of_le_of_lt hm hm2) (lt_irrefl s)⟩
      · simp at he
    | none =>
      rw [hw] at he
      simp only [List.mem_cons] at he
      rcases he with he | he | he
      · exact ⟨s, le_refl s, by simp, Or.inl he, fun m hm hm2 => absurd (lt_of_le_of_lt hm hm2) (lt_irrefl s)⟩
      · exact ⟨s, le_refl s, by simp, Or.inr he, fun m hm hm2 => absurd (lt_of_le_of_lt hm hm2) (lt_irrefl s)⟩
      · rcases ih (s + 1) he with ⟨j, hj1, hj2, hj3, hj4⟩
        refine ⟨j, by omega, by simp at hj2 ⊢; omega, hj3, fun m hm hm2 => ?_⟩
        rcases Nat.eq_or_lt_of_le hm with hm' | hm'
        · rw [← hm']; exact hw
        · exact hj4 m hm' hm2

/-- If all writes before relative position `i` succeed and the write at `i`
fails with `e`, the pipeline returns exactly that error. -/
theorem deltaEvents_result (ls : List String) (w : Nat → Option ErrKind) (s : Nat)
    (i : Nat) (e : ErrKind) (hi : i < ls.length)
    (hok : ∀ j, j < i → w (s + j) = none) (hfail : w (s + i) = some e) :
    (deltaEvents ls w s).2 = some e := by
  induction ls generalizing s i with
  | nil => simp at hi
  | cons l ls ih =>
    rw [deltaEvents]
    cases i with
    | zero =>
      simp at hfail
      rw [hfail]
    | succ i' =>
      have h0 : w s = none := by
        have := hok 0 (Nat.succ_pos i')
        simpa using this
      rw [h0]
      simp only []
      apply ih (s + 1) i'
      · simpa using hi
      · intro j hj
        have := hok (j + 1) (by omega)
        simpa [Nat.add_assoc, Nat.add_comm 1 j] using this
      · have : s + 1 + i' = s + (i' + 1) := by omega
        rw [this]
        exact hfail

/-- C1: on the main diff path, when the pipeline's output write for line `i`
fails with a broken pipe (all earlier writes having succeeded), the run
touches no line beyond `i` (stops writing further lines), exits with status
0, and prints no error message. -/
theorem broken_pipe_clean_exit (opt : Opt) (lines : List String)
    (w : Nat → Option ErrKind) (i : Nat)
    (h1 : opt.list_languages = false) (h2 : opt.list_theme_names = false)
    (h3 : opt.list_themes = false) (h4 : opt.show_background_colors = false)
    (hi : i < lines.length)
    (hok : ∀ j, j < i → w j = none)
    (hfail : w i = some ErrKind.brokenPipe) :
    (mainRun opt lines w).exitCode = 0 ∧
    (mainRun opt lines w).errOutput = [] ∧
    (∀ j, i < j → Event.writeLine j ∉ (mainRun opt lines w).events) := by
  have hres : (deltaEvents lines w 0).2 = some ErrKind.brokenPipe := by
    apply deltaEvents_result lines w 0 i ErrKind.brokenPipe hi
    · intro j hj
      simpa using hok j hj
    · simpa using hfail
  have hmain : mainRun opt lines w =
      ⟨[Event.loadAssets, Event.resolveConfig, Event.openOutput] ++ (deltaEvents lines w 0).1, 0, []⟩ := by
    rw [mainRun, h1, h2, h3, h4]
    simp only [Bool.false_eq_true, if_false]
    rw [hres]
  refine ⟨by rw [hmain], by rw [hmain], fun j hj hmem => ?_⟩
  rw [hmain] at hmem
  simp only [List.append_eq, List.mem_append, List.mem_cons, List.mem_singleton] at hmem
  rcases hmem with (hmem | hmem | hmem) | hmem
  · exact Event.noConfusion hmem
  · exact Event.noConfusion hmem
  · simp at hmem
  · rcases deltaEvents_mem lines w 0 _ hmem with ⟨j', hj1, hj2, hj3, hj4⟩
    rcases hj3 with hj3 | hj3
    · exact Event.noConfusion hj3
    · have hjj : j' = j := by
        have := Event.writeLine.inj hj3
        omega
      have : w i = none := hj4 i (Nat.zero_le i) (by omega)
      rw [this] at hfail
      exact Option.noConfusion hfail

/-- C1 witness: a concrete three-line run whose second write hits a broken
pipe exits 0, prints nothing to stderr, and writes no line after index 1. -/
theorem broken_pipe_clean_exit_witness :
    (mainRun optPlain ["a", "b", "c"] wBrokenAt1).exitCode = 0 ∧
    (mainRun optPlain ["a", "b", "c"] wBrokenAt1).errOutput = [] ∧
    (∀ j, 1 < j → Event.writeLine j ∉ (mainRun optPlain ["a", "b", "c"] wBrokenAt1).events) :=
  broken_pipe_clean_exit optPlain ["a", "b", "c"] wBrokenAt1 1
    rfl rfl rfl rfl (by decide)
    (fun j hj => by
      have hj0 : j = 0 := Nat.lt_one_iff.mp hj
      rw [hj0]; rfl)
    rfl

/-- C2 counterexample: a concrete main-diff-path run whose first write fails
with a fatal (non-broken-pipe) I/O error does print the single error message,
but the process exit status is 0, not non-zero: `main` returns `Ok(())`
after the `eprintln`, so the claim that the exit status reflects failure is
false on this input. -/
theorem fatal_error_exit_status_counterexample :
    wFatalAt0 0 = some (ErrKind.other "io error") ∧
    (mainRun optPlain ["x"] wFatalAt0).errOutput = ["io error"] ∧
    ¬ (mainRun optPlain ["x"] wFatalAt0).exitCode ≠ 0 := by
  refine ⟨rfl, rfl, ?_⟩
  intro h
  exact h rfl

/-- C2 amended: on the main diff path, a fatal pipeline error (any error
other than a broken pipe on output) is reported as a single human-readable
message on stderr, but the process still terminates with exit status 0:
the fatal case and the clean early-exit case both yield a success status. -/
theorem fatal_error_single_message (opt : Opt) (lines : List String)
    (w : Nat → Option ErrKind) (i : Nat) (msg : String)
    (h1 : opt.list_languages = false) (h2 : opt.list_theme_names = false)
    (h3 : opt.list_themes = false) (h4 : opt.show_background_colors = false)
    (hi : i < lines.length)
    (hok : ∀ j, j < i → w j = none)
    (hfail : w i = some (ErrKind.other msg)) :
    (mainRun opt lines w).errOutput = [msg] ∧
    (mainRun opt lines w).exitCode = 0 := by
  have hres : (deltaEvents lines w 0).2 = some (ErrKind.other msg) := by
    apply deltaEvents_result lines w 0 i (ErrKind.other msg) hi
    · intro j hj
      simpa using hok j hj
    · simpa using hfail
  rw [mainRun, h1, h2, h3, h4]
  simp only [Bool.false_eq_true, if_false]
  rw [hres]
  exact ⟨rfl, rfl⟩

/-- C2 witness: the amended statement applied to the concrete fatal-error
run: one message "io error" on stderr and exit status 0. -/
theorem fatal_error_single_message_witness :
    (mainRun optPlain ["x"] wFatalAt0).errOutput = ["io error"] ∧
    (mainRun optPlain ["x"] wFatalAt0).exitCode = 0 :=
  fatal_error_single_message optPlain ["x"] wFatalAt0 0 "io error"
    rfl rfl rfl rfl (by decide)
    (fun j hj => absurd hj (Nat.not_lt_zero j))
    rfl

/-- C5: on the main diff path, configuration resolution happens exactly once
in the run's event trace, and it strictly precedes every read of an input
line: no line is processed before the configuration is resolved. -/
theorem config_resolved_once_before_input (opt : Opt) (lines : List String)
    (w : Nat → Option ErrKind)
    (h1 : opt.list_languages = false) (h2 : opt.list_theme_names = false)
    (h3 : opt.list_themes = false) (h4 : opt.show_background_colors = false) :
    (mainRun opt lines w).events.count Event.resolveConfig = 1 ∧
    (∀ k i, (mainRun opt lines w).events.get? k = some (Event.readLine i) →
      ∃ m, m < k ∧ (mainRun opt lines w).events.get? m = some Event.resolveConfig) := by
  have hmain : (mainRun opt lines w).events =
      [Event.loadAssets, Event.resolveConfig, Event.openOutput] ++ (deltaEvents lines w 0).1 := by
    rw [mainRun, h1, h2, h3, h4]
    simp only [Bool.false_eq_true, if_false]
    cases hres : (deltaEvents lines w 0).2 with
    | none => rfl
    | some e => cases e <;> rfl
  constructor
  · rw [hmain]
    rw [List.count_append]
    have hd : (deltaEvents lines w 0).1.count Event.resolveConfig = 0 := by
      rw [List.count_eq_zero]
      intro hmem
      rcases deltaEvents_mem lines w 0 _ hmem with ⟨j, _, _, hj3, _⟩
      rcases hj3 with hj3 | hj3 <;> exact Event.noConfusion hj3
    rw [hd]
    rfl
  · intro k i hk
    refine ⟨1, ?_, ?_⟩
    · rcases k with _ | _ | k
      · rw [hmain] at hk
        simp at hk
      · rw [hmain] at hk
        simp at hk
      · omega
    · rw [hmain]
      rfl

/-- C5 witness: the statement applied to a concrete two-line run: the trace
resolves configuration exactly once, and the read of line 0 (at index 3 of
the trace) is preceded by the configuration-resolution event. -/
theorem config_resolved_once_before_input_witness :
    (mainRun optPlain ["a", "b"] (fun _ => none)).events.count Event.resolveConfig = 1 ∧
    (∀ k i, (mainRun optPlain ["a", "b"] (fun _ => none)).events.get? k = some (Event.readLine i) →
      ∃ m, m < k ∧ (mainRun optPlain ["a", "b"] (fun _ => none)).events.get? m = some Event.resolveConfig) :=
  config_resolved_once_before_input optPlain ["a", "b"] (fun _ => none) rfl rfl rfl rfl

/-- C9: whenever a diagnostic flag is set, the stdin diff pipeline never
runs (no line is read or written and no output handle is opened), the
process exits with status 0, and exactly one diagnostic runs, chosen by the
fixed precedence list-languages, list-theme-names, list-themes,
show-background-colors; the first three traces contain no
configuration-resolution event (they exit before it), while the
show-background-colors trace resolves configuration first. -/
theorem diagnostic_flag_dispatch (opt : Opt) (lines : List String)
    (w : Nat → Option ErrKind)
    (h : opt.list_languages = true ∨ opt.list_theme_names = true ∨
         opt.list_themes = true ∨ opt.show_background_colors = true) :
    (mainRun opt lines w).exitCode = 0 ∧
    (∀ i, Event.readLine i ∉ (mainRun opt lines w).events) ∧
    (∀ i, Event.writeLine i ∉ (mainRun opt lines w).events) ∧
    Event.openOutput ∉ (mainRun opt lines w).events ∧
    (mainRun opt lines w).events =
      (if opt.list_languages then [Event.loadAssets, Event.runListLanguages]
       else if opt.list_theme_names then [Event.loadAssets, Event.runListThemeNames]
       else if opt.list_themes then [Event.loadAssets, Event.runListThemes]
       else [Event.loadAssets, Event.resolveConfig, Event.runShowBackgroundColors]) := by
  have hmain : (mainRun opt lines w).events =
      (if opt.list_languages then [Event.loadAssets, Event.runListLanguages]
       else if opt.list_theme_names then [Event.loadAssets, Event.runListThemeNames]
       else if opt.list_themes then [Event.loadAssets, Event.runListThemes]
       else [Event.loadAssets, Event.resolveConfig, Event.runShowBackgroundColors]) ∧
      (mainRun opt lines w).exitCode = 0 := by
    rcases hll : opt.list_languages with _ | _
    · rcases hltn : opt.list_theme_names with _ | _
      · rcases hlt : opt.list_themes with _ | _
        · rcases hsb : opt.show_background_colors with _ | _
          · rcases h with h | h | h | h
            · rw [hll] at h; exact Bool.noConfusion h
            · rw [hltn] at h; exact Bool.noConfusion h
            · rw [hlt] at h; exact Bool.noConfusion h
            · rw [hsb] at h; exact Bool.noConfusion h
          · rw [mainRun, hll, hltn, hlt, hsb]
            simp
        · rw [mainRun, hll, hltn, hlt]
          simp
      · rw [mainRun, hll, hltn]
        simp
    · rw [mainRun, hll]
      simp
  refine ⟨hmain.2, ?_, ?_, ?_, hmain.1⟩ <;>
    first
      | (intro i hmem
         rw [hmain.1] at hmem
         rcases hll : opt.list_languages with _ | _ <;> rw [hll] at hmem <;>
           rcases hltn : opt.list_theme_names with _ | _ <;> rw [hltn] at hmem <;>
           rcases hlt : opt.list_themes with _ | _ <;> rw [hlt] at hmem <;>
           simp at hmem)
      | (intro hmem
         rw [hmain.1] at hmem
         rcases hll : opt.list_languages with _ | _ <;> rw [hll] at hmem <;>
           rcases hltn : opt.list_theme_names with _ | _ <;> rw [hltn] at hmem <;>
           rcases hlt : opt.list_themes with _ | _ <;> rw [hlt] at hmem <;>
           simp at hmem)

/-- C9 witness: the statement applied to a run with both the list-themes and
show-background-colors flags set: the trace is exactly the list-themes
diagnostic (precedence), no pipeline event occurs, and the exit status is 0. -/
theorem diagnostic_flag_dispatch_witness :
    (mainRun ⟨false, false, true, true, false, false⟩ ["x"] (fun _ => none)).exitCode = 0 ∧
    (∀ i, Event.readLine i ∉ (mainRun ⟨false, false, true, true, false, false⟩ ["x"] (fun _ => none)).events) ∧
    (∀ i, Event.writeLine i ∉ (mainRun ⟨false, false, true, true, false, false⟩ ["x"] (fun _ => none)).events) ∧
    Event.openOutput ∉ (mainRun ⟨false, false, true, true, false, false⟩ ["x"] (fun _ => none)).events ∧
    (mainRun ⟨false, false, true, true, false, false⟩ ["x"] (fun _ => none)).events =
      (if (false : Bool) then [Event.loadAssets, Event.runListLanguages]
       else if (false : Bool) then [Event.loadAssets, Event.runListThemeNames]
       else if (true : Bool) then [Event.loadAssets, Event.runListThemes]
       else [Event.loadAssets, Event.resolveConfig, Event.runShowBackgroundColors]) :=
  diagnostic_flag_dispatch ⟨false, false, true, true, false, false⟩ ["x"] (fun _ => none)
    (Or.inr (Or.inr (Or.inl rfl)))

/-- Every event of `list_theme_names` is a directly printed line. -/
theorem list_theme_names_events_print (themes : List String) (isLight : String → Bool)
    (e : DiagEvent) (he : e ∈ list_theme_names_run themes isLight) :
    ∃ s, e = DiagEvent.printLine s := by
  rw [list_theme_names_run] at he
  simp only [List.mem_cons, List.mem_append, List.mem_map] at he
  rcases he with he | (⟨t, _, he⟩ | he | ⟨t, _, he⟩)
  · exact ⟨"Light themes:", he⟩
  · exact ⟨"    " ++ t, he.symm⟩
  · exact ⟨"Dark themes:", he⟩
  · exact ⟨"    " ++ t, he.symm⟩

/-- The pipeline invocations of `list_themes`: exactly one per rendered
theme, each on the in-memory input string split on newlines. -/
theorem list_themes_framings (opt : Opt) (stdinIsTty : Bool) (stdinContent : String)
    (themes : List String) (isLight : String → Bool) :
    (list_themes_run opt stdinIsTty stdinContent themes isLight).filterMap diagFraming =
    (renderedThemes opt isLight themes).map
      (fun _ => InputFraming.stringSplitNewline (listThemesInput stdinIsTty stdinContent)) := by
  rw [list_themes_run]
  induction renderedThemes opt isLight themes with
  | nil => rfl
  | cons t ts ih =>
    simp only [List.map_cons, List.flatten_cons, List.filterMap_append]
    rw [ih]
    rfl

/-- C3 counterexample: the list-theme-names diagnostic at a concrete theme
set produces a non-empty run containing no pipeline invocation at all, so it
is not a wrapper that invokes the full diff pipeline. -/
theorem diagnostic_pipeline_counterexample :
    (list_theme_names_run ["Solarized (light)"] (fun _ => true)).countP isPipelineCall = 0 ∧
    list_theme_names_run ["Solarized (light)"] (fun _ => true) ≠ [] := by
  constructor
  · rfl
  · intro h
    rw [list_theme_names_run] at h
    exact List.noConfusion h

/-- C3 amended: only the list-themes diagnostic invokes the full diff
pipeline — exactly once per rendered theme, on an in-memory input string
split on newlines; the list-theme-names diagnostic and the
show-background-colors diagnostic print their output directly and invoke no
pipeline. -/
theorem diagnostic_modes_pipeline_use (opt : Opt) (stdinIsTty : Bool) (stdinContent : String)
    (themes : List String) (isLight : String → Bool) (light dark : Bool) :
    (list_theme_names_run themes isLight).countP isPipelineCall = 0 ∧
    programPipelineFramings ⟨false, false, false, true, light, dark⟩
      stdinIsTty stdinContent themes isLight = [] ∧
    (list_themes_run opt stdinIsTty stdinContent themes isLight).filterMap diagFraming =
      (renderedThemes opt isLight themes).map
        (fun _ => InputFraming.stringSplitNewline (listThemesInput stdinIsTty stdinContent)) := by
  refine ⟨?_, rfl, list_themes_framings opt stdinIsTty stdinContent themes isLight⟩
  rw [List.countP_eq_zero]
  intro e he
  rcases list_theme_names_events_print themes isLight e he with ⟨s, hs⟩
  rw [hs]
  intro h
  exact Bool.noConfusion h

/-- C4: every input framing the program ever feeds to the diff pipeline is
either the line sequence of standard input (the main diff path) or an
in-memory string split on newline boundaries (the list-themes path); no
other framing occurs. -/
theorem pipeline_input_framings (opt : Opt) (stdinIsTty : Bool) (stdinContent : String)
    (themes : List String) (isLight : String → Bool) (f : InputFraming)
    (hf : f ∈ programPipelineFramings opt stdinIsTty stdinContent themes isLight) :
    f = InputFraming.stdinLines ∨
    f = InputFraming.stringSplitNewline (listThemesInput stdinIsTty stdinContent) := by
  rw [programPipelineFramings] at hf
  split at hf
  · simp at hf
  · split at hf
    · rw [List.filterMap_eq_nil_iff.mpr] at hf
      · simp at hf
      · intro e he
        rcases list_theme_names_events_print themes isLight e he with ⟨s, hs⟩
        rw [hs]
        rfl
    · split at hf
      · rw [list_themes_framings] at hf
        rcases List.mem_map.mp hf with ⟨t, _, ht⟩
        exact Or.inr ht.symm
      · split at hf
        · simp at hf
        · rw [List.mem_singleton] at hf
          exact Or.inl hf

/-- C4 witness: on the plain diff path the single pipeline invocation uses
the stdin-lines framing. -/
theorem pipeline_input_framings_witness :
    InputFraming.stdinLines = InputFraming.stdinLines ∨
    InputFraming.stdinLines = InputFraming.stringSplitNewline (listThemesInput false "") :=
  pipeline_input_framings optPlain false "" [] isLightW InputFraming.stdinLines
    (List.mem_singleton.mpr rfl)

/-- C7: the light/dark filter of list-themes is honored: with the light flag
set, no theme classified non-light is rendered; with the dark flag set, no
theme classified light is rendered; with neither flag set, every theme of
the theme set is rendered. -/
theorem light_dark_theme_filter (opt : Opt) (themes : List String)
    (isLight : String → Bool) (t : String) :
    (opt.light = true → isLight t = false → t ∉ renderedThemes opt isLight themes) ∧
    (opt.dark = true → isLight t = true → t ∉ renderedThemes opt isLight themes) ∧
    (opt.light = false → opt.dark = false → renderedThemes opt isLight themes = themes) := by
  refine ⟨fun hl hn hmem => ?_, fun hd hy hmem => ?_, fun hl hd => ?_⟩
  · rw [renderedThemes] at hmem
    have hp := List.of_mem_filter hmem
    rw [themeSkipped, hl, hn] at hp
    simp at hp
  · rw [renderedThemes] at hmem
    have hp := List.of_mem_filter hmem
    rw [themeSkipped, hd, hy] at hp
    simp at hp
  · rw [renderedThemes]
    apply List.filter_eq_self.mpr
    intro a _
    rw [themeSkipped, hl, hd]
    rfl

/-- C7 witness: with the light flag the dark theme "D" is skipped, with the
dark flag the light theme "L" is skipped, and with neither flag both themes
are rendered. -/
theorem light_dark_theme_filter_witness :
    ("D" ∉ renderedThemes lightOnlyOpt isLightW ["L", "D"]) ∧
    ("L" ∉ renderedThemes darkOnlyOpt isLightW ["L", "D"]) ∧
    renderedThemes optPlain isLightW ["L", "D"] = ["L", "D"] :=
  ⟨(light_dark_theme_filter lightOnlyOpt ["L", "D"] isLightW "D").1 rfl (by decide),
   (light_dark_theme_filter darkOnlyOpt ["L", "D"] isLightW "L").2.1 rfl (by decide),
   (light_dark_theme_filter optPlain ["L", "D"] isLightW "L").2.2 rfl rfl⟩

/-- C10: the list-theme-names run is the line "Light themes:" followed by
exactly the themes classified light, then the line "Dark themes:" followed
by exactly the themes not classified light; both sections are sublists of
the theme set (iteration order preserved), and across the two sections every
theme of the theme set is printed exactly once (counts add up). -/
theorem theme_names_listing (themes : List String) (isLight : String → Bool) :
    list_theme_names_run themes isLight =
      DiagEvent.printLine "Light themes:" ::
        ((themes.filter (fun t => isLight t)).map (fun t => DiagEvent.printLine ("    " ++ t))
          ++ DiagEvent.printLine "Dark themes:" ::
            (themes.filter (fun t => !(isLight t))).map
              (fun t => DiagEvent.printLine ("    " ++ t))) ∧
    (∀ t, (themes.filter (fun s => isLight s)).count t
        + (themes.filter (fun s => !(isLight s))).count t = themes.count t) ∧
    (∀ t, t ∈ themes.filter (fun s => isLight s) ↔ t ∈ themes ∧ isLight t = true) ∧
    (∀ t, t ∈ themes.filter (fun s => !(isLight s)) ↔ t ∈ themes ∧ isLight t = false) ∧
    List.Sublist (themes.filter (fun s => isLight s)) themes ∧
    List.Sublist (themes.filter (fun s => !(isLight s))) themes := by
  refine ⟨rfl, fun t => ?_, fun t => ?_, fun t => ?_,
    List.filter_sublist themes, List.filter_sublist themes⟩
  · have h := List.Perm.count_eq (List.filter_append_perm (fun s => isLight s) themes) t
    rw [List.count_append] at h
    exact h
  · rw [List.mem_filter]
  · rw [List.mem_filter]
    constructor
    · intro ⟨h1, h2⟩
      exact ⟨h1, by simpa using h2⟩
    · intro ⟨h1, h2⟩
      exact ⟨h1, by simp [h2]⟩

/-- C6: with the show-background-colors flag set, the program prints exactly
one diagnostic line; its color-bearing chunks are, in order, the four
configured backgrounds (minus, minus-emph, plus, plus-emph), each the
color's "#rrggbb" hex string painted with that color as background, unset
(no) foreground and empty font style, each followed by the terminal style
reset; and the process exits with status 0. -/
theorem show_background_colors_line (config : Config) (m me p pe : SColor)
    (hm : config.minus_style_modifier.background = some m)
    (hme : config.minus_emph_style_modifier.background = some me)
    (hp : config.plus_style_modifier.background = some p)
    (hpe : config.plus_emph_style_modifier.background = some pe) :
    (∃ line, show_background_colors config = some [line] ∧
      line.filter isColorChunk =
        [Chunk.painted (rgbHexString m) ⟨NO_COLOR, MColor.rgb m, 0⟩ config.true_color, Chunk.reset,
         Chunk.painted (rgbHexString me) ⟨NO_COLOR, MColor.rgb me, 0⟩ config.true_color, Chunk.reset,
         Chunk.painted (rgbHexString p) ⟨NO_COLOR, MColor.rgb p, 0⟩ config.true_color, Chunk.reset,
         Chunk.painted (rgbHexString pe) ⟨NO_COLOR, MColor.rgb pe, 0⟩ config.true_color, Chunk.reset]) ∧
    (∀ (light dark : Bool) (lines : List String) (w : Nat → Option ErrKind),
      (mainRun ⟨false, false, false, true, light, dark⟩ lines w).exitCode = 0) := by
  constructor
  · refine ⟨[Chunk.plain "delta --minus-color=\""]
      ++ get_painted_rgb_string m config.true_color
      ++ [Chunk.plain "\" --minus-emph-color=\""]
      ++ get_painted_rgb_string me config.true_color
      ++ [Chunk.plain "\" --plus-color=\""]
      ++ get_painted_rgb_string p config.true_color
      ++ [Chunk.plain "\" --plus-emph-color=\""]
      ++ get_painted_rgb_string pe config.true_color
      ++ [Chunk.plain "\""], ?_, ?_⟩
    · rw [show_background_colors, hm, hme, hp, hpe]
    · simp [get_painted_rgb_string, paint_text, isColorChunk, List.filter_append]
  · intro light dark lines w
    rfl

/-- C6 witness: the statement applied to a concrete configuration with all
four backgrounds present. -/
theorem show_background_colors_line_witness :
    (∃ line, show_background_colors configW = some [line] ∧
      line.filter isColorChunk =
        [Chunk.painted (rgbHexString ⟨224, 108, 117⟩) ⟨NO_COLOR, MColor.rgb ⟨224, 108, 117⟩, 0⟩ configW.true_color, Chunk.reset,
         Chunk.painted (rgbHexString ⟨255, 0, 0⟩) ⟨NO_COLOR, MColor.rgb ⟨255, 0, 0⟩, 0⟩ configW.true_color, Chunk.reset,
         Chunk.painted (rgbHexString ⟨152, 195, 121⟩) ⟨NO_COLOR, MColor.rgb ⟨152, 195, 121⟩, 0⟩ configW.true_color, Chunk.reset,
         Chunk.painted (rgbHexString ⟨0, 0, 255⟩) ⟨NO_COLOR, MColor.rgb ⟨0, 0, 255⟩, 0⟩ configW.true_color, Chunk.reset]) ∧
    (∀ (light dark : Bool) (lines : List String) (w : Nat → Option ErrKind),
      (mainRun ⟨false, false, false, true, light, dark⟩ lines w).exitCode = 0) :=
  show_background_colors_line configW ⟨224, 108, 117⟩ ⟨255, 0, 0⟩ ⟨152, 195, 121⟩ ⟨0, 0, 255⟩
    rfl rfl rfl rfl

/-- The before-side classifications of a pure-insertion script are empty. -/
theorem beforeStatuses_ins_map {β : Type} (ys : List β) :
    beforeStatuses (ys.map (fun _ => Op.ins)) = [] := by
  simp [beforeStatuses]

/-- The before-side classifications of a pure-deletion script mark every
token changed. -/
theorem beforeStatuses_del_map {β : Type} (ys : List β) :
    beforeStatuses (ys.map (fun _ => Op.del)) = ys.map (fun _ => TokStatus.changed) := by
  simp [beforeStatuses]

/-- The after-side classifications of a pure-insertion script mark every
token changed. -/
theorem afterStatuses_ins_map {β : Type} (ys : List β) :
    afterStatuses (ys.map (fun _ => Op.ins)) = ys.map (fun _ => TokStatus.changed) := by
  simp [afterStatuses]

/-- The after-side classifications of a pure-deletion script are empty. -/
theorem afterStatuses_del_map {β : Type} (ys : List β) :
    afterStatuses (ys.map (fun _ => Op.del)) = [] := by
  simp [afterStatuses]

/-- The edit script classifies exactly one token status per before-side
token: the before-side status list has the before side's length. -/
theorem beforeStatuses_length {α : Type} [DecidableEq α] (xs ys : List α) :
    (beforeStatuses (editOps xs ys)).length = xs.length := by
  induction xs, ys using editOps.induct with
  | case1 ys =>
    rw [editOps, beforeStatuses_ins_map]
    rfl
  | case2 x xs =>
    rw [editOps, beforeStatuses_del_map, List.length_map]
  | case3 xs y ys ih =>
    rw [editOps, if_pos rfl]
    simpa [beforeStatuses, List.filterMap_cons] using ih
  | case4 x xs y ys hne hle ih =>
    rw [editOps, if_neg hne, if_pos hle]
    simpa [beforeStatuses, List.filterMap_cons] using ih
  | case5 x xs y ys hne hgt ih =>
    rw [editOps, if_neg hne, if_neg hgt]
    simpa [beforeStatuses, List.filterMap_cons] using ih

/-- The edit script classifies exactly one token status per after-side
token: the after-side status list has the after side's length. -/
theorem afterStatuses_length {α : Type} [DecidableEq α] (xs ys : List α) :
    (afterStatuses (editOps xs ys)).length = ys.length := by
  induction xs, ys using editOps.induct with
  | case1 ys =>
    rw [editOps, afterStatuses_ins_map, List.length_map]
  | case2 x xs =>
    rw [editOps, afterStatuses_del_map]
    rfl
  | case3 xs y ys ih =>
    rw [editOps, if_pos rfl]
    simpa [afterStatuses, List.filterMap_cons] using ih
  | case4 x xs y ys hne hle ih =>
    rw [editOps, if_neg hne, if_pos hle]
    simpa [afterStatuses, List.filterMap_cons] using ih
  | case5 x xs y ys hne hgt ih =>
    rw [editOps, if_neg hne, if_neg hgt]
    simpa [afterStatuses, List.filterMap_cons] using ih

/-- A partition of one range is a partition of any equal range. -/
theorem isPartition_congr_hi (lo hi hi2 : Nat) (l : List EditSpan)
    (h : isPartition lo hi l) (he : hi = hi2) : isPartition lo hi2 l :=
  he ▸ h

/-- Grouping a status list into runs from position `pos` yields a partition
of the index range from `pos` to `pos` plus the list length. -/
theorem groupSpans_isPartition (l : List TokStatus) (pos : Nat) :
    isPartition pos (pos + l.length) (groupSpans pos l) := by
  induction l generalizing pos with
  | nil => simp [groupSpans, isPartition]
  | cons s rest ih =>
    rw [groupSpans]
    split
    · rename_i hg
      have ih2 := ih (pos + 1)
      rw [hg, isPartition] at ih2
      rw [isPartition]
      refine ⟨rfl, Nat.lt_succ_self pos, ?_⟩
      rw [isPartition]
      show pos + 1 = pos + (s :: rest).length
      simp only [List.length_cons]
      omega
    · rename_i sp sps hg
      have ih2 := ih (pos + 1)
      rw [hg, isPartition] at ih2
      obtain ⟨h1, h2, h3⟩ := ih2
      by_cases hst : sp.status = s
      · rw [if_pos hst, isPartition]
        refine ⟨rfl, ?_, ?_⟩
        · show pos < sp.stop
          omega
        · show isPartition sp.stop (pos + (s :: rest).length) sps
          refine isPartition_congr_hi _ _ _ _ h3 ?_
          simp only [List.length_cons]
          omega
      · rw [if_neg hst, isPartition]
        refine ⟨rfl, Nat.lt_succ_self pos, ?_⟩
        rw [isPartition]
        refine ⟨h1, h2, ?_⟩
        show isPartition sp.stop (pos + (s :: rest).length) sps
        refine isPartition_congr_hi _ _ _ _ h3 ?_
        simp only [List.length_cons]
        omega

/-- A partition's lower bound does not exceed its upper bound. -/
theorem isPartition_lo_le_hi (l : List EditSpan) (lo hi : Nat)
    (h : isPartition lo hi l) : lo ≤ hi := by
  induction l generalizing lo with
  | nil => rw [isPartition] at h; omega
  | cons sp sps ih =>
    rw [isPartition] at h
    obtain ⟨h1, h2, h3⟩ := h
    have := ih sp.stop h3
    omega

/-- No span of a partition contains an index below the partition's lower
bound. -/
theorem isPartition_countP_before (l : List EditSpan) (lo hi i : Nat)
    (h : isPartition lo hi l) (hlt : i < lo) : l.countP (spanHas i) = 0 := by
  induction l generalizing lo with
  | nil => rfl
  | cons sp sps ih =>
    rw [isPartition] at h
    obtain ⟨h1, h2, h3⟩ := h
    rw [List.countP_cons]
    have hhead : spanHas i sp = false := by
      rw [spanHas]
      simp only [Bool.and_eq_false_iff, decide_eq_false_iff_not]
      left
      omega
    rw [hhead, if_neg (Bool.false_ne_true), Nat.add_zero]
    exact ih sp.stop h3 (by omega)

/-- No span of a partition contains an index at or above the partition's
upper bound. -/
theorem isPartition_countP_after (l : List EditSpan) (lo hi i : Nat)
    (h : isPartition lo hi l) (hge : hi ≤ i) : l.countP (spanHas i) = 0 := by
  induction l generalizing lo with
  | nil => rfl
  | cons sp sps ih =>
    rw [isPartition] at h
    obtain ⟨h1, h2, h3⟩ := h
    have hstop := isPartition_lo_le_hi sps sp.stop hi h3
    rw [List.countP_cons]
    have hhead : spanHas i sp = false := by
      rw [spanHas]
      simp only [Bool.and_eq_false_iff, decide_eq_false_iff_not]
      right
      omega
    rw [hhead, if_neg (Bool.false_ne_true), Nat.add_zero]
    exact ih sp.stop h3

/-- Every index inside a partition's range is contained in exactly one of
its spans. -/
theorem isPartition_countP_mem (l : List EditSpan) (lo hi i : Nat)
    (h : isPartition lo hi l) (hlo : lo ≤ i) (hhi : i < hi) :
    l.countP (spanHas i) = 1 := by
  induction l generalizing lo with
  | nil => rw [isPartition] at h; omega
  | cons sp sps ih =>
    rw [isPartition] at h
    obtain ⟨h1, h2, h3⟩ := h
    rw [List.countP_cons]
    by_cases hin : i < sp.stop
    · have hhead : spanHas i sp = true := by
        rw [spanHas]
        simp only [Bool.and_eq_true, decide_eq_true_eq]
        omega
      rw [hhead, if_pos rfl]
      rw [isPartition_countP_before sps sp.stop hi i h3 hin]
    · have hhead : spanHas i sp = false := by
        rw [spanHas]
        simp only [Bool.and_eq_false_iff, decide_eq_false_iff_not]
        right
        omega
      rw [hhead, if_neg (Bool.false_ne_true), Nat.add_zero]
      exact ih sp.stop h3 (by omega)

/-- Grouping from position 0 partitions the full index range of the status
list. -/
theorem groupSpans_partition_zero (l : List TokStatus) :
    isPartition 0 l.length (groupSpans 0 l) := by
  have h := groupSpans_isPartition l 0
  refine isPartition_congr_hi _ _ _ _ h ?_
  omega

/-- Exact-cover count for grouped spans: indices in range are covered once,
indices out of range never. -/
theorem groupSpans_countP (l : List TokStatus) (i : Nat) :
    (groupSpans 0 l).countP (spanHas i) = if i < l.length then 1 else 0 := by
  by_cases h : i < l.length
  · rw [if_pos h]
    exact isPartition_countP_mem _ 0 l.length i (groupSpans_partition_zero l) (Nat.zero_le i) h
  · rw [if_neg h]
    exact isPartition_countP_after _ 0 l.length i (groupSpans_partition_zero l) (by omega)

/-- C8: for every Paired line, the EditSpans of each side form a partition
of that side's full token range — ordered, gap-free, non-overlapping,
starting at 0 and ending at the side's token count — and every token index
of the side lies in exactly one span (indices outside the range in none), so
concatenating a side's spans reconstructs its token range exactly once. -/
theorem edit_spans_partition (before after : String) :
    (isPartition 0 (tokenize before.data).length (editSpansBefore before after) ∧
      ∀ i, (editSpansBefore before after).countP (spanHas i) =
        if i < (tokenize before.data).length then 1 else 0) ∧
    (isPartition 0 (tokenize after.data).length (editSpansAfter before after) ∧
      ∀ i, (editSpansAfter before after).countP (spanHas i) =
        if i < (tokenize after.data).length then 1 else 0) := by
  refine ⟨⟨?_, fun i => ?_⟩, ⟨?_, fun i => ?_⟩⟩
  · rw [editSpansBefore]
    have h := groupSpans_partition_zero
      (beforeStatuses (editOps (tokenize before.data) (tokenize after.data)))
    rw [beforeStatuses_length] at h
    exact h
  · rw [editSpansBefore]
    have h := groupSpans_countP
      (beforeStatuses (editOps (tokenize before.data) (tokenize after.data))) i
    rw [beforeStatuses_length] at h
    exact h
  · rw [editSpansAfter]
    have h := groupSpans_partition_zero
      (afterStatuses (editOps (tokenize before.data) (tokenize after.data)))
    rw [afterStatuses_length] at h
    exact h
  · rw [editSpansAfter]
    have h := groupSpans_countP
      (afterStatuses (editOps (tokenize before.data) (tokenize after.data))) i
    rw [afterStatuses_length] at h
    exact h

/-- C3 amended witness: the statement applied to a concrete theme set and
configuration. -/
theorem diagnostic_modes_pipeline_use_witness :
    (list_theme_names_run ["L"] isLightW).countP isPipelineCall = 0 ∧
    programPipelineFramings ⟨false, false, false, true, false, false⟩
      true "" ["L"] isLightW = [] ∧
    (list_themes_run optPlain true "" ["L"] isLightW).filterMap diagFraming =
      (renderedThemes optPlain isLightW ["L"]).map
        (fun _ => InputFraming.stringSplitNewline (listThemesInput true "")) :=
  diagnostic_modes_pipeline_use optPlain true "" ["L"] isLightW false false

/-- C10 witness: the statement applied to a concrete two-theme set with one
light and one dark theme. -/
theorem theme_names_listing_witness :
    list_theme_names_run ["L", "D"] isLightW =
      DiagEvent.printLine "Light themes:" ::
        ((["L", "D"].filter (fun t => isLightW t)).map (fun t => DiagEvent.printLine ("    " ++ t))
          ++ DiagEvent.printLine "Dark themes:" ::
            (["L", "D"].filter (fun t => !(isLightW t))).map
              (fun t => DiagEvent.printLine ("    " ++ t))) ∧
    (∀ t, (["L", "D"].filter (fun s => isLightW s)).count t
        + (["L", "D"].filter (fun s => !(isLightW s))).count t = ["L", "D"].count t) ∧
    (∀ t, t ∈ ["L", "D"].filter (fun s => isLightW s) ↔ t ∈ ["L", "D"] ∧ isLightW t = true) ∧
    (∀ t, t ∈ ["L", "D"].filter (fun s => !(isLightW s)) ↔ t ∈ ["L", "D"] ∧ isLightW t = false) ∧
    List.Sublist (["L", "D"].filter (fun s => isLightW s)) ["L", "D"] ∧
    List.Sublist (["L", "D"].filter (fun s => !(isLightW s))) ["L", "D"] :=
  theme_names_listing ["L", "D"] isLightW

/-- C8 witness: the partition and exact-cover statement applied to the
concrete paired line "a b" / "a c". -/
theorem edit_spans_partition_witness :
    (isPartition 0 (tokenize "a b".data).length (editSpansBefore "a b" "a c") ∧
      ∀ i, (editSpansBefore "a b" "a c").countP (spanHas i) =
        if i < (tokenize "a b".data).length then 1 else 0) ∧
    (isPartition 0 (tokenize "a c".data).length (editSpansAfter "a b" "a c") ∧
      ∀ i, (editSpansAfter "a b" "a c").countP (spanHas i) =
        if i < (tokenize "a c".data).length then 1 else 0) :=
  edit_spans_partition "a b" "a c"

end Delta
